import Mathlib

/-!
# vlm-json-test: guard-page allocator and boundary fuzz driver

A shallow embedding of `src/vlm-json-test.c`.

Conventions of the embedding

* `size_t` is 64 bits wide: every `size_t` expression is reduced modulo `2 ^ 64`
  where the C expression can wrap.  `int` is 32 bits wide.
* Addresses are natural numbers.  Memory is a total map from addresses to byte
  values; page protection is not part of the map, the accessible range of a
  mapping is described by the bounds `unmap_p` and `guard_p` of its descriptor.
* Results of system and library calls (`mmap`, `mprotect`, `malloc`, the file
  contents seen by `fopen`/`fread`) are parameters, collected in `Sys`.
* The parser callback is an arbitrary transformer of the memory and of a
  private state of its own.  Every invocation is logged together with the
  memory it was started on, and every store performed by `munch_short_json`
  itself is logged by address.
* The input of `munch_short_json` is `const char *`; it is never written by
  the harness and is modelled as an immutable list of bytes held outside the
  memory map (the stores of the callback do not reach it), `json_length` being
  its length.
* A failed `assert` ends the run; the reason is returned together with the
  world reached at that point.
-/

namespace VlmJsonTest

/-- Modulus of `size_t` arithmetic. -/
def SIZE_MOD : Nat := 2 ^ 64

/-- Byte-addressed memory. -/
abbrev Mem := Nat → Nat

/-- Descriptor of a memory block with a guarded page (`guarded_mem_block`). -/
structure guarded_mem_block where
  p : Nat
  size : Nat
  guard_p : Nat
  unmap_p : Nat
  unmap_size : Nat
deriving DecidableEq, Repr

/-- The assertions of the program; a failed one aborts the process. -/
inductive Abort where
  /-- `assert(gmem.unmap_p)` in `mmap_with_guard_page`. -/
  | mmap_null
  /-- `assert(ret == 0)` in `mmap_with_guard_page`. -/
  | mprotect_failed
  /-- `assert(memcmp(copy, json, pfxlen - 2) == 0)` in `munch_short_json`. -/
  | copy_corrupted
  /-- `assert(buf)` in `load_file`. -/
  | malloc_null
  /-- `assert(long_json_length > 5000000)` in `vlm_json_perftest`. -/
  | long_size
  /-- `assert(short_json_length > 3000 && short_json_length < 4096)`. -/
  | short_size
deriving DecidableEq, Repr

/-- Results of the system and library calls made by the program. -/
structure Sys where
  /-- Address returned by `mmap` in `mmap_with_guard_page`. -/
  mmap_ret : Nat
  /-- Value returned by `mprotect` in `mmap_with_guard_page`. -/
  mprotect_ret : Int
  /-- Address returned by `malloc` when the long file is loaded. -/
  long_buf : Nat
  /-- Address returned by `malloc` when the short file is loaded. -/
  short_buf : Nat

/-- One invocation `callback(json, len)`, with the memory it started on. -/
structure Call where
  json : Nat
  len : Nat
  mem : Mem

/-- The parser under test: reads and possibly writes memory, keeps a state. -/
abbrev Callback (σ : Type) := σ → Mem → Nat → Nat → σ × Mem

/-- Memory, callback state, log of invocations, log of the addresses stored
to by `munch_short_json`. -/
structure World (σ : Type) where
  mem : Mem
  cbs : σ
  calls : List Call
  writes : List Nat

/-- A world with empty logs. -/
def World.fresh {σ : Type} (m : Mem) (s : σ) : World σ :=
  { mem := m, cbs := s, calls := [], writes := [] }

/-- Outcome of a run: the final world, or the failed assertion and the world
reached when it failed. -/
abbrev Outcome (σ : Type) := Except (Abort × World σ) (World σ)

/-- The world a run ended in, whether it returned or aborted. -/
def Outcome.world {σ : Type} : Outcome σ → World σ
  | .ok w => w
  | .error e => e.2

/-- The failed assertion of a run, if any. -/
def Outcome.abort {σ : Type} : Outcome σ → Option Abort
  | .ok _ => none
  | .error e => some e.1

/-- Memory after the one-byte store `*a = v`. -/
def Mem.set (m : Mem) (a v : Nat) : Mem := fun x => if x = a then v else m x

/-- Memory after `n` bytes of `src` were copied to `dst`. -/
def Mem.copy (m : Mem) (dst : Nat) (src : List Nat) (n : Nat) : Mem :=
  fun x => if dst ≤ x ∧ x < dst + n then src.getD (x - dst) 0 else m x

/-- A one-byte store by the driver. -/
def store {σ : Type} (w : World σ) (a v : Nat) : World σ :=
  { w with mem := w.mem.set a v, writes := w.writes ++ [a] }

/-- The call `memcpy(dst, src, n)` by the driver. -/
def memcpy {σ : Type} (w : World σ) (dst : Nat) (src : List Nat) (n : Nat) : World σ :=
  { w with mem := w.mem.copy dst src n, writes := w.writes ++ List.range' dst n }

/-- The test `memcmp(p, src, n) == 0`. -/
def memcmp_eq (m : Mem) (p : Nat) (src : List Nat) (n : Nat) : Bool :=
  (List.range n).all fun i => m (p + i) == src.getD i 0

/-- The call `callback(json, len)`. -/
def invoke {σ : Type} (cb : Callback σ) (json len : Nat) (w : World σ) : World σ :=
  let r := cb w.cbs w.mem json len
  { w with mem := r.2, cbs := r.1,
           calls := w.calls ++ [{ json := json, len := len, mem := w.mem }] }

/-- Conversion of a `size_t` value to `int`, as `pfxlen = json_length` does
it on a two's complement target: the low 32 bits, read as a signed number. -/
def to_int (x : Nat) : Int :=
  if x % 2 ^ 32 < 2 ^ 31 then ((x % 2 ^ 32 : Nat) : Int) else ((x % 2 ^ 32 : Nat) : Int) - 2 ^ 32

/-- The local `rounded_size = (expected_size + 4095) & ~4095` of
`mmap_with_guard_page` (line 29).  `~4095` is the `int` `-4096`, which converts
to `2 ^ 64 - 4096` as a `size_t`. -/
def rounded_size (expected_size : Nat) : Nat :=
  ((expected_size + 4095) % SIZE_MOD) &&& (SIZE_MOD - 4096)

/-- The function `mmap_with_guard_page` (lines 28-46). -/
def mmap_with_guard_page (sys : Sys) (expected_size : Nat) : Except Abort guarded_mem_block :=
  let rounded_size := rounded_size expected_size
  let unmap_size := (rounded_size + 4096) % SIZE_MOD
  let unmap_p := sys.mmap_ret
  if unmap_p = 0 then .error .mmap_null else
  let guard_p := unmap_p + rounded_size
  let ret := sys.mprotect_ret
  if ret ≠ 0 then .error .mprotect_failed else
  .ok { p := unmap_p + 4096 - (expected_size &&& 4095)
        size := expected_size
        guard_p := guard_p
        unmap_p := unmap_p
        unmap_size := unmap_size }

/-- The pointer `copy = gmem.guard_p - pfxlen - (zero_termination_required?1:0)`
of `munch_short_json` (line 68).  The subtraction is that of the natural
numbers; it is exact whenever the rounded region holds `pfxlen + 1` bytes. -/
def copy (gmem : guarded_mem_block) (pfxlen : Nat) (zero_termination_required : Bool) : Nat :=
  gmem.guard_p - pfxlen - (if zero_termination_required then 1 else 0)

/-- The pointer `munchchar = &copy[pfxlen - 1]` of `munch_short_json` (line 71). -/
def munchchar (gmem : guarded_mem_block) (pfxlen : Nat) (zero_termination_required : Bool) : Nat :=
  copy gmem pfxlen zero_termination_required + (pfxlen - 1)

/-- The body of the `for(pfxlen ...)` loop of `munch_short_json` (lines 68-81). -/
def munch_body {σ : Type} (cb : Callback σ) (json : List Nat) (zero_termination_required : Bool)
    (gmem : guarded_mem_block) (pfxlen : Nat) (w : World σ) : Outcome σ :=
  let copy := copy gmem pfxlen zero_termination_required
  let w := memcpy w copy json pfxlen
  let munchchar := munchchar gmem pfxlen zero_termination_required
  let w := if zero_termination_required then store w (copy + pfxlen) 0 else w
  let w := (List.range 256).foldl (fun w j => invoke cb copy pfxlen (store w munchchar (j % 256))) w
  if memcmp_eq w.mem copy json (pfxlen - 2) then .ok w else .error (.copy_corrupted, w)

/-- The loop `for(pfxlen = ...; pfxlen > 1; pfxlen--)` of `munch_short_json`. -/
def munch_loop {σ : Type} (cb : Callback σ) (json : List Nat) (zero_termination_required : Bool)
    (gmem : guarded_mem_block) : Nat → World σ → Outcome σ
  | pfxlen + 2, w =>
    match munch_body cb json zero_termination_required gmem (pfxlen + 2) w with
    | .ok w => munch_loop cb json zero_termination_required gmem (pfxlen + 1) w
    | .error e => .error e
  | _, w => .ok w

/-- The function `munch_short_json` (lines 62-85); `json_length` is
`json.length`.  The closing `unmap_guarded_block` releases the mapping and
changes neither the logs nor the outcome. -/
def munch_short_json {σ : Type} (cb : Callback σ) (sys : Sys) (json : List Nat)
    (zero_termination_required : Bool) (w : World σ) : Outcome σ :=
  match mmap_with_guard_page sys ((json.length + 1) % SIZE_MOD) with
  | .error a => .error (a, w)
  | .ok gmem => munch_loop cb json zero_termination_required gmem (to_int json.length).toNat w

/-- The function `load_file` (lines 94-114): pointer, size and world after the
call; `file` is the content of the named file, `none` when it cannot be
opened, and `buf` the address returned by `malloc`. -/
def load_file {σ : Type} (file : Option (List Nat)) (buf : Nat) (w : World σ) :
    Except (Abort × World σ) (Nat × Nat × World σ) :=
  match file with
  | none => .ok (0, 0, w)
  | some bytes =>
    let file_size := bytes.length
    if buf = 0 then .error (.malloc_null, w) else
    .ok (buf, file_size, { w with mem := (w.mem.copy buf bytes file_size).set (buf + file_size) 0 })

/-- The function `vlm_json_perftest` (lines 120-164), without its timing and
printing. -/
def vlm_json_perftest {σ : Type} (cb : Callback σ) (sys : Sys)
    (short_file long_file : Option (List Nat)) (zero_termination_required : Bool)
    (w : World σ) : Outcome σ :=
  match load_file long_file sys.long_buf w with
  | .error e => .error e
  | .ok (long_json, long_json_length, w) =>
    if ¬ (long_json_length > 5000000) then .error (.long_size, w) else
    let w := (List.range 100).foldl (fun w _ => invoke cb long_json long_json_length w) w
    match load_file short_file sys.short_buf w with
    | .error e => .error e
    | .ok (_, short_json_length, w) =>
      if ¬ (short_json_length > 3000 ∧ short_json_length < 4096) then .error (.short_size, w) else
      munch_short_json cb sys (short_file.getD []) zero_termination_required w

/-! ## Vocabulary of the statements -/

/-- The values taken by `pfxlen` in a loop started at `n`: `n, n - 1, ..., 2`. -/
def descending : Nat → List Nat
  | n + 2 => (n + 2) :: descending (n + 1)
  | _ => []

/-- Memory once the prefix is copied and, when required, terminated
(lines 69-73), before the first mutation. -/
def copied_mem (json : List Nat) (zero_termination_required : Bool) (gmem : guarded_mem_block)
    (pfxlen : Nat) (m : Mem) : Mem :=
  if zero_termination_required then
    (m.copy (copy gmem pfxlen zero_termination_required) json pfxlen).set
      (copy gmem pfxlen zero_termination_required + pfxlen) 0
  else m.copy (copy gmem pfxlen zero_termination_required) json pfxlen

/-- The `len` bytes handed to the callback at an invocation. -/
def Call.buffer (c : Call) : List Nat :=
  (List.range c.len).map fun i => c.mem (c.json + i)

/-- A callback that only reads: memory and state are returned unchanged. -/
def reading_callback : Callback Unit := fun s m _ _ => (s, m)

/-- A callback that overwrites the byte after its buffer, `json[len]`. -/
def terminator_writing_callback : Callback Unit := fun s m json len => (s, m.set (json + len) 1)

/-- A callback that overwrites `json[len - 2]`, the byte before the mutated one. -/
def neighbour_writing_callback : Callback Unit :=
  fun s m json len => (s, m.set (json + (len - 2)) 255)

/-- What a successful `mmap(0, length, ...)` that returned `addr` guarantees:
the call fails with `EINVAL` for a zero `length`, so `length` is not zero; the
result is not null; and the mapping lies inside the 64-bit address space. -/
abbrev mmap_succeeded (addr length : Nat) : Prop :=
  length ≠ 0 ∧ addr ≠ 0 ∧ addr + length ≤ SIZE_MOD

/-- System results of a sample run: a mapping at `0x10000`, `mprotect`
succeeding, file buffers at `0x900000` and `0x800000`. -/
def sample_sys : Sys :=
  { mmap_ret := 65536, mprotect_ret := 0, long_buf := 9437184, short_buf := 8388608 }

/-- A file of `n` space characters. -/
def blank_file (n : Nat) : List Nat := List.replicate n 32

/-! ## Page arithmetic -/

/-- Masking with `~4095` clears the low twelve bits. -/
theorem land_page_mask (x : Nat) (hx : x < 2 ^ 64) :
    x &&& (2 ^ 64 - 4096) = x / 4096 * 4096 := by
  apply Nat.eq_of_testBit_eq
  intro i
  have h1 : (2 : Nat) ^ 64 - 4096 = 2 ^ 12 * (2 ^ 52 - 1) := by norm_num
  have h2 : x / 4096 * 4096 = 2 ^ 12 * (x >>> 12) := by
    rw [Nat.shiftRight_eq_div_pow]; norm_num [Nat.mul_comm]
  rw [h1, h2, Nat.testBit_land, Nat.testBit_mul_pow_two, Nat.testBit_mul_pow_two,
    Nat.testBit_two_pow_sub_one, Nat.testBit_shiftRight]
  by_cases hi : 12 ≤ i
  · have e : 12 + (i - 12) = i := by omega
    by_cases h52 : i - 12 < 52
    · simp [hi, h52, e]
    · have hbit : x.testBit i = false := by
        apply Nat.testBit_lt_two_pow
        calc x < 2 ^ 64 := hx
          _ ≤ 2 ^ i := Nat.pow_le_pow_right (by norm_num) (by omega)
      simp [hi, h52, hbit, e]
  · simp [hi]

/-- Masking with `4095` keeps the offset within the page. -/
theorem land_page_offset (x : Nat) : x &&& 4095 = x % 4096 :=
  Nat.and_pow_two_sub_one_eq_mod x 12

/-- Without overflow `rounded_size` rounds up to a whole number of pages. -/
theorem rounded_size_eq (n : Nat) (hn : n + 4095 < 2 ^ 64) :
    rounded_size n = (n + 4095) / 4096 * 4096 := by
  unfold rounded_size SIZE_MOD
  rw [Nat.mod_eq_of_lt hn, land_page_mask _ hn]

/-- The descriptor built by `mmap_with_guard_page` when both system calls succeed. -/
theorem mmap_with_guard_page_ok (sys : Sys) (n : Nat) (hmap : sys.mmap_ret ≠ 0)
    (hprot : sys.mprotect_ret = 0) :
    mmap_with_guard_page sys n = .ok
      { p := sys.mmap_ret + 4096 - n % 4096
        size := n
        guard_p := sys.mmap_ret + rounded_size n
        unmap_p := sys.mmap_ret
        unmap_size := (rounded_size n + 4096) % SIZE_MOD } := by
  simp [mmap_with_guard_page, hmap, hprot, land_page_offset]

/-! ## The mutation loops -/

/-- The 256 mutation rounds of one prefix, for an invariant `I` of the memory,
a property `Q` and a projection `f` of the invocations. -/
theorem foldl_rounds_spec {σ α : Type} (cb : Callback σ) (copy pfxlen mc : Nat)
    (I : Mem → Prop) (Q : Call → Prop) (f : Call → α) (g : Nat → α)
    (hstore : ∀ m v, I m → I (m.set mc v))
    (hcb : ∀ s m, I m → I (cb s m copy pfxlen).2)
    (js : List Nat)
    (hQ : ∀ m j, I m → j ∈ js → Q ⟨copy, pfxlen, m.set mc (j % 256)⟩)
    (hf : ∀ m j, I m → j ∈ js → f ⟨copy, pfxlen, m.set mc (j % 256)⟩ = g j)
    (w : World σ) (hI : I w.mem) :
    I (js.foldl (fun w j => invoke cb copy pfxlen (store w mc (j % 256))) w).mem ∧
    (js.foldl (fun w j => invoke cb copy pfxlen (store w mc (j % 256))) w).calls.map f
      = w.calls.map f ++ js.map g ∧
    (∀ c ∈ (js.foldl (fun w j => invoke cb copy pfxlen (store w mc (j % 256))) w).calls,
      c ∈ w.calls ∨ Q c) ∧
    (js.foldl (fun w j => invoke cb copy pfxlen (store w mc (j % 256))) w).writes
      = w.writes ++ js.map (fun _ => mc) := by
  induction js generalizing w with
  | nil => exact ⟨hI, by simp, fun c hc => Or.inl hc, by simp⟩
  | cons j js ih =>
    have hI1 : I (invoke cb copy pfxlen (store w mc (j % 256))).mem :=
      hcb _ _ (hstore _ _ hI)
    obtain ⟨h1, h2, h3, h4⟩ := ih (fun m k hm hk => hQ m k hm (List.mem_cons_of_mem _ hk))
      (fun m k hm hk => hf m k hm (List.mem_cons_of_mem _ hk)) _ hI1
    refine ⟨h1, ?_, ?_, ?_⟩
    · rw [List.foldl_cons, h2]
      simp [invoke, store, hf w.mem j hI (List.mem_cons_self _ _)]
    · intro c hc
      rcases h3 c hc with h | h
      · simp only [invoke, store, List.mem_append, List.mem_singleton] at h
        rcases h with h | h
        · exact Or.inl h
        · exact Or.inr (h ▸ hQ w.mem j hI (List.mem_cons_self _ _))
      · exact Or.inr h
    · rw [List.foldl_cons, h4]
      simp [invoke, store]

/-- The world of a checked outcome. -/
theorem world_check {σ : Type} (c : Bool) (a : Abort) (w : World σ) :
    Outcome.world (if c = true then Except.ok w else Except.error (a, w)) = w := by
  cases c <;> rfl

/-- A checked outcome returns exactly when the check holds. -/
theorem abort_check {σ : Type} (c : Bool) (a : Abort) (w : World σ) :
    Outcome.abort (if c = true then Except.ok w else Except.error (a, w)) = none ↔ c = true := by
  cases c <;> simp [Outcome.abort]

/-- World after the setup stores of one prefix (lines 69-73). -/
theorem setup_world {σ : Type} (json : List Nat) (z : Bool) (gmem : guarded_mem_block)
    (p : Nat) (w : World σ) :
    (if z then store (memcpy w (copy gmem p z) json p) (copy gmem p z + p) 0
      else memcpy w (copy gmem p z) json p)
    = { w with mem := copied_mem json z gmem p w.mem,
               writes := w.writes ++ List.range' (copy gmem p z) p ++
                 (if z then [copy gmem p z + p] else []) } := by
  cases z <;> simp [store, memcpy, copied_mem]

/-- The world reached by one pass of the body, as a fold over the 256 values. -/
theorem munch_body_world {σ : Type} (cb : Callback σ) (json : List Nat) (z : Bool)
    (gmem : guarded_mem_block) (p : Nat) (w : World σ) :
    (munch_body cb json z gmem p w).world =
      (List.range 256).foldl (fun w j => invoke cb (copy gmem p z) p
        (store w (munchchar gmem p z) (j % 256)))
        { w with mem := copied_mem json z gmem p w.mem,
                 writes := w.writes ++ List.range' (copy gmem p z) p ++
                   (if z then [copy gmem p z + p] else []) } := by
  rw [← setup_world]
  unfold munch_body
  exact world_check _ _ _

/-- One pass of the body returns exactly when its integrity check holds. -/
theorem munch_body_abort {σ : Type} (cb : Callback σ) (json : List Nat) (z : Bool)
    (gmem : guarded_mem_block) (p : Nat) (w : World σ) :
    (munch_body cb json z gmem p w).abort = none ↔
      memcmp_eq (munch_body cb json z gmem p w).world.mem (copy gmem p z) json (p - 2) = true := by
  unfold munch_body
  simp only []
  rw [world_check, abort_check]

/-- One pass of the body of the prefix loop. -/
theorem munch_body_spec {σ α : Type} (cb : Callback σ) (json : List Nat) (z : Bool)
    (gmem : guarded_mem_block) (p : Nat)
    (I : Mem → Prop) (Q : Call → Prop) (f : Call → α) (g : Nat → α)
    (hsetup : ∀ m, I (copied_mem json z gmem p m))
    (hstore : ∀ m v, I m → I (m.set (munchchar gmem p z) v))
    (hcb : ∀ s m, I m → I (cb s m (copy gmem p z) p).2)
    (hQ : ∀ m j, I m → j < 256 → Q ⟨copy gmem p z, p, m.set (munchchar gmem p z) j⟩)
    (hf : ∀ m j, I m → j < 256 → f ⟨copy gmem p z, p, m.set (munchchar gmem p z) j⟩ = g j)
    (w : World σ) :
    I (munch_body cb json z gmem p w).world.mem ∧
    (munch_body cb json z gmem p w).world.calls.map f
      = w.calls.map f ++ (List.range 256).map g ∧
    (∀ c ∈ (munch_body cb json z gmem p w).world.calls, c ∈ w.calls ∨ Q c) ∧
    (munch_body cb json z gmem p w).world.writes
      = w.writes ++ List.range' (copy gmem p z) p ++ (if z then [copy gmem p z + p] else [])
        ++ List.replicate 256 (munchchar gmem p z) := by
  have hmod : ∀ j, j ∈ List.range 256 → j % 256 = j := fun j hj =>
    Nat.mod_eq_of_lt (List.mem_range.mp hj)
  obtain ⟨h1, h2, h3, h4⟩ := foldl_rounds_spec cb (copy gmem p z) p (munchchar gmem p z) I Q f g
    hstore hcb (List.range 256)
    (fun m j hm hj => by rw [hmod j hj]; exact hQ m j hm (List.mem_range.mp hj))
    (fun m j hm hj => by rw [hmod j hj]; exact hf m j hm (List.mem_range.mp hj))
    { w with mem := copied_mem json z gmem p w.mem,
             writes := w.writes ++ List.range' (copy gmem p z) p ++
               (if z then [copy gmem p z + p] else []) } (hsetup _)
  rw [munch_body_world]
  refine ⟨h1, h2, h3, ?_⟩
  rw [h4, List.map_const', List.length_range]


/-- The prefix loop, for a family of memory invariants `I p`, of properties
`Q p` and a projection `f` of the invocations. -/
theorem munch_loop_spec {σ α : Type} (cb : Callback σ) (json : List Nat) (z : Bool)
    (gmem : guarded_mem_block) (N : Nat)
    (I : Nat → Mem → Prop) (Q : Nat → Call → Prop) (f : Call → α) (g : Nat → Nat → α)
    (hsetup : ∀ p m, 2 ≤ p → p ≤ N → I p (copied_mem json z gmem p m))
    (hstore : ∀ p m v, 2 ≤ p → p ≤ N → I p m → I p (m.set (munchchar gmem p z) v))
    (hcb : ∀ p s m, 2 ≤ p → p ≤ N → I p m → I p (cb s m (copy gmem p z) p).2)
    (hQ : ∀ p m j, 2 ≤ p → p ≤ N → I p m → j < 256 →
      Q p ⟨copy gmem p z, p, m.set (munchchar gmem p z) j⟩)
    (hf : ∀ p m j, 2 ≤ p → p ≤ N → I p m → j < 256 →
      f ⟨copy gmem p z, p, m.set (munchchar gmem p z) j⟩ = g p j)
    (n : Nat) (hn : n ≤ N) (w : World σ) :
    (∀ c ∈ (munch_loop cb json z gmem n w).world.calls,
      c ∈ w.calls ∨ ∃ p, 2 ≤ p ∧ p ≤ n ∧ Q p c) ∧
    (∀ a ∈ (munch_loop cb json z gmem n w).world.writes,
      a ∈ w.writes ∨ ∃ p, 2 ≤ p ∧ p ≤ n ∧
        (copy gmem p z ≤ a ∧ a < copy gmem p z + p ∨ z = true ∧ a = copy gmem p z + p)) ∧
    ((munch_loop cb json z gmem n w).abort = none →
      (munch_loop cb json z gmem n w).world.calls.map f
        = w.calls.map f ++ (descending n).flatMap (fun p => (List.range 256).map (g p))) ∧
    ((∀ p m, 2 ≤ p → p ≤ n → I p m → memcmp_eq m (copy gmem p z) json (p - 2) = true) →
      (munch_loop cb json z gmem n w).abort = none) ∧
    (∀ a, (a ∈ w.writes ∨ 2 ≤ n ∧
        (copy gmem n z ≤ a ∧ a < copy gmem n z + n ∨ z = true ∧ a = copy gmem n z + n)) →
      a ∈ (munch_loop cb json z gmem n w).world.writes) := by
  induction n generalizing w with
  | zero =>
    simp only [munch_loop, descending, Outcome.world, Outcome.abort]
    exact ⟨fun c hc => Or.inl hc, fun a ha => Or.inl ha, by simp, by simp, by simp⟩
  | succ k ih =>
    cases k with
    | zero =>
      simp only [munch_loop, descending, Outcome.world, Outcome.abort]
      exact ⟨fun c hc => Or.inl hc, fun a ha => Or.inl ha, by simp, by simp, by simp⟩
    | succ k =>
      have h2 : 2 ≤ k + 2 := by omega
      obtain ⟨p1, p2, p3, p4⟩ := munch_body_spec cb json z gmem (k + 2)
        (I (k + 2)) (Q (k + 2)) f (g (k + 2))
        (fun m => hsetup _ m h2 hn) (fun m v => hstore _ m v h2 hn)
        (fun s m => hcb _ s m h2 hn) (fun m j => hQ _ m j h2 hn) (fun m j => hf _ m j h2 hn) w
      have p5 := munch_body_abort cb json z gmem (k + 2) w
      have hmc : munchchar gmem (k + 2) z = copy gmem (k + 2) z + (k + 1) := rfl
      have hw1 : ∀ a, (a ∈ w.writes ∨
          (copy gmem (k + 2) z ≤ a ∧ a < copy gmem (k + 2) z + (k + 2) ∨
            z = true ∧ a = copy gmem (k + 2) z + (k + 2))) ↔
          a ∈ (munch_body cb json z gmem (k + 2) w).world.writes := by
        intro a
        rw [p4, hmc]
        simp only [List.mem_append, List.mem_range'_1, List.mem_replicate]
        by_cases hin : a ∈ w.writes <;> cases z <;> simp [hin] <;> omega
      rw [munch_loop]
      cases hr : munch_body cb json z gmem (k + 2) w with
      | error e =>
        rw [hr] at p1 p2 p3 p5 hw1
        simp only [Outcome.world, Outcome.abort] at p1 p2 p3 p5 hw1 ⊢
        refine ⟨?_, ?_, ?_, ?_, ?_⟩
        · intro c hc
          rcases p3 c hc with h | h
          · exact Or.inl h
          · exact Or.inr ⟨k + 2, h2, le_refl _, h⟩
        · intro a ha
          rcases (hw1 a).mpr ha with h | h
          · exact Or.inl h
          · exact Or.inr ⟨k + 2, h2, le_refl _, h⟩
        · intro h; simp at h
        · intro hall
          exact absurd (p5.mpr (hall _ _ h2 (le_refl _) p1)) (by simp)
        · intro a ha
          apply (hw1 a).mp
          rcases ha with h | ⟨_, h⟩
          · exact Or.inl h
          · exact Or.inr h
      | ok w1 =>
        rw [hr] at p1 p2 p3 p5 hw1
        simp only [Outcome.world, Outcome.abort] at p1 p2 p3 p5 hw1
        obtain ⟨q1, q2, q3, q4, q5⟩ := ih (by omega) w1
        refine ⟨?_, ?_, ?_, ?_, ?_⟩
        · intro c hc
          rcases q1 c hc with h | ⟨p, hp2, hpn, hq⟩
          · rcases p3 c h with h | h
            · exact Or.inl h
            · exact Or.inr ⟨k + 2, h2, le_refl _, h⟩
          · exact Or.inr ⟨p, hp2, by omega, hq⟩
        · intro a ha
          rcases q2 a ha with h | ⟨p, hp2, hpn, hq⟩
          · rcases (hw1 a).mpr h with h | h
            · exact Or.inl h
            · exact Or.inr ⟨k + 2, h2, le_refl _, h⟩
          · exact Or.inr ⟨p, hp2, by omega, hq⟩
        · intro h
          rw [q3 h, p2, descending, List.flatMap_cons, List.append_assoc]
        · intro hall
          exact q4 (fun p m hp hpn hI => hall p m hp (by omega) hI)
        · intro a ha
          apply q5
          left
          apply (hw1 a).mp
          rcases ha with h | ⟨_, h⟩
          · exact Or.inl h
          · exact Or.inr h

/-! ## The guarded region allocator -/

/-- C8: for a size `n` that is not a multiple of 4096 and for which `n + 4095`
does not overflow, when `mmap` and `mprotect` succeed `mmap_with_guard_page`
returns a block with `p = unmap_p + 4096 - n mod 4096`, `unmap_p < p`, a leading
slack of `4096 - n mod 4096` bytes, and `p + n = guard_p = unmap_p + rounded_size`:
the `n` usable bytes end exactly where the guard page starts. -/
theorem mmap_with_guard_page_unaligned (sys : Sys) (n : Nat)
    (hmap : sys.mmap_ret ≠ 0) (hprot : sys.mprotect_ret = 0)
    (hn : n + 4095 < 2 ^ 64) (hmod : n % 4096 ≠ 0) :
    ∃ g, mmap_with_guard_page sys n = .ok g ∧ g.unmap_p = sys.mmap_ret ∧ g.size = n ∧
      g.p = g.unmap_p + 4096 - n % 4096 ∧ g.unmap_p < g.p ∧
      g.p - g.unmap_p = 4096 - n % 4096 ∧
      g.p + n = g.guard_p ∧ g.guard_p = g.unmap_p + rounded_size n ∧
      (∀ i, i < n → g.unmap_p ≤ g.p + i ∧ g.p + i < g.guard_p) := by
  refine ⟨_, mmap_with_guard_page_ok sys n hmap hprot, rfl, rfl, rfl, ?_, ?_, ?_, rfl, ?_⟩
  all_goals simp only [rounded_size_eq n hn]
  all_goals omega

/-- Witness of C8 at `n = 4097`. -/
theorem mmap_with_guard_page_unaligned_witness :
    (sample_sys.mmap_ret ≠ 0 ∧ sample_sys.mprotect_ret = 0 ∧ 4097 + 4095 < 2 ^ 64 ∧
      4097 % 4096 ≠ 0) ∧
    ∃ g, mmap_with_guard_page sample_sys 4097 = .ok g ∧ g.unmap_p = sample_sys.mmap_ret ∧ g.size = 4097 ∧
      g.p = g.unmap_p + 4096 - 4097 % 4096 ∧ g.unmap_p < g.p ∧
      g.p - g.unmap_p = 4096 - 4097 % 4096 ∧
      g.p + 4097 = g.guard_p ∧ g.guard_p = g.unmap_p + rounded_size 4097 ∧
      (∀ i, i < 4097 → g.unmap_p ≤ g.p + i ∧ g.p + i < g.guard_p) :=
  ⟨⟨by decide, rfl, by decide, by decide⟩,
    mmap_with_guard_page_unaligned sample_sys 4097 (by decide) rfl (by decide) (by decide)⟩

/-- C1, behaviour of the code at a page multiple: for `n = 4096 * k` the block
returned has `p = unmap_p + 4096` whatever `k` is, while the guard page starts at
`unmap_p + n`; so `p + n` is the end of the guard page, not its start, and for
`n = 4096` the pointer `p` is the first byte of the guard page. -/
theorem mmap_with_guard_page_page_multiple (sys : Sys) (k : Nat)
    (hmap : sys.mmap_ret ≠ 0) (hprot : sys.mprotect_ret = 0)
    (hn : 4096 * k + 4095 < 2 ^ 64) :
    ∃ g, mmap_with_guard_page sys (4096 * k) = .ok g ∧
      g.p = g.unmap_p + 4096 ∧ g.guard_p = g.unmap_p + 4096 * k ∧
      g.p + 4096 * k = g.guard_p + 4096 ∧ g.p + 4096 * k ≠ g.guard_p ∧
      (k = 1 → g.p = g.guard_p) := by
  refine ⟨_, mmap_with_guard_page_ok sys _ hmap hprot, ?_, ?_, ?_, ?_, ?_⟩
  all_goals simp only [rounded_size_eq _ hn]
  all_goals omega

/-- The code at `n = 4096`, the size requested for a 4095-byte short file. -/
theorem mmap_with_guard_page_page_multiple_witness :
    (sample_sys.mmap_ret ≠ 0 ∧ sample_sys.mprotect_ret = 0 ∧ 4096 * 1 + 4095 < 2 ^ 64) ∧
    ∃ g, mmap_with_guard_page sample_sys (4096 * 1) = .ok g ∧
      g.p = g.unmap_p + 4096 ∧ g.guard_p = g.unmap_p + 4096 * 1 ∧
      g.p + 4096 * 1 = g.guard_p + 4096 ∧ g.p + 4096 * 1 ≠ g.guard_p ∧
      (1 = 1 → g.p = g.guard_p) :=
  ⟨⟨by decide, rfl, by decide⟩,
    mmap_with_guard_page_page_multiple sample_sys 1 (by decide) rfl (by decide)⟩

/-- C9: for a size `n` for which `n + 4095` does not overflow, when `mmap`
succeeds on the length it is asked for and `mprotect` succeeds, `rounded_size`
is the smallest multiple of 4096 that is at least `n`, the mapping has length
`unmap_size = rounded_size + 4096`, and the guard page starts at
`guard_p = unmap_p + rounded_size` and is the last 4096 bytes of the mapping. -/
theorem mmap_with_guard_page_layout (sys : Sys) (n : Nat)
    (hn : n + 4095 < 2 ^ 64)
    (hmap : mmap_succeeded sys.mmap_ret ((rounded_size n + 4096) % SIZE_MOD))
    (hprot : sys.mprotect_ret = 0) :
    rounded_size n % 4096 = 0 ∧ n ≤ rounded_size n ∧
    (∀ m, m % 4096 = 0 → n ≤ m → rounded_size n ≤ m) ∧
    ∃ g, mmap_with_guard_page sys n = .ok g ∧ g.unmap_p = sys.mmap_ret ∧
      g.unmap_size = rounded_size n + 4096 ∧
      g.guard_p = g.unmap_p + rounded_size n ∧
      g.guard_p + 4096 = g.unmap_p + g.unmap_size := by
  have hr := rounded_size_eq n hn
  have hlen : (rounded_size n + 4096) % SIZE_MOD ≠ 0 := hmap.1
  simp only [SIZE_MOD] at hlen
  refine ⟨by omega, by omega, fun m hm hle => by omega, _,
    mmap_with_guard_page_ok sys n hmap.2.1 hprot, rfl, ?_, rfl, ?_⟩
  all_goals simp only [SIZE_MOD]
  all_goals omega

/-- Witness of C9 at `n = 5000`. -/
theorem mmap_with_guard_page_layout_witness :
    (5000 + 4095 < 2 ^ 64 ∧
      mmap_succeeded sample_sys.mmap_ret ((rounded_size 5000 + 4096) % SIZE_MOD) ∧
      sample_sys.mprotect_ret = 0) ∧
    (rounded_size 5000 % 4096 = 0 ∧ 5000 ≤ rounded_size 5000 ∧
    (∀ m, m % 4096 = 0 → 5000 ≤ m → rounded_size 5000 ≤ m) ∧
    ∃ g, mmap_with_guard_page sample_sys 5000 = .ok g ∧ g.unmap_p = sample_sys.mmap_ret ∧
      g.unmap_size = rounded_size 5000 + 4096 ∧
      g.guard_p = g.unmap_p + rounded_size 5000 ∧
      g.guard_p + 4096 = g.unmap_p + g.unmap_size) :=
  ⟨⟨by decide, by decide, rfl⟩,
    mmap_with_guard_page_layout sample_sys 5000 (by decide) (by decide) rfl⟩

/-! ## The harness entry point -/

/-- Length of a blank file. -/
theorem blank_file_length (n : Nat) : (blank_file n).length = n :=
  List.length_replicate n 32

/-- A checked outcome aborts only with the reason of the check. -/
theorem abort_check_cases {σ : Type} (c : Bool) (a : Abort) (w : World σ) :
    Outcome.abort (if c = true then Except.ok w else Except.error (a, w)) = none ∨
    Outcome.abort (if c = true then Except.ok w else Except.error (a, w)) = some a := by
  cases c <;> simp [Outcome.abort]

/-- One pass of the body aborts only through its integrity assertion. -/
theorem munch_body_abort_cases {σ : Type} (cb : Callback σ) (json : List Nat) (z : Bool)
    (gmem : guarded_mem_block) (p : Nat) (w : World σ) :
    (munch_body cb json z gmem p w).abort = none ∨
    (munch_body cb json z gmem p w).abort = some .copy_corrupted := by
  unfold munch_body
  exact abort_check_cases _ _ _

/-- The prefix loop aborts only through its integrity assertion. -/
theorem munch_loop_abort {σ : Type} (cb : Callback σ) (json : List Nat) (z : Bool)
    (gmem : guarded_mem_block) (n : Nat) (w : World σ) :
    (munch_loop cb json z gmem n w).abort = none ∨
    (munch_loop cb json z gmem n w).abort = some .copy_corrupted := by
  induction n generalizing w with
  | zero => left; rfl
  | succ k ih =>
    cases k with
    | zero => left; rfl
    | succ k =>
      rw [munch_loop]
      have hp := munch_body_abort_cases cb json z gmem (k + 2) w
      cases hr : munch_body cb json z gmem (k + 2) w with
      | ok w1 => exact ih w1
      | error e =>
        rw [hr] at hp
        simpa [Outcome.abort] using hp

/-- The fuzz driver never aborts through the size assertions of the entry point. -/
theorem munch_short_json_abort {σ : Type} (cb : Callback σ) (sys : Sys) (json : List Nat)
    (z : Bool) (w : World σ) :
    (munch_short_json cb sys json z w).abort ≠ some .short_size := by
  unfold munch_short_json
  cases hg : mmap_with_guard_page sys ((json.length + 1) % SIZE_MOD) with
  | error a =>
    unfold mmap_with_guard_page at hg
    simp only [] at hg
    split at hg
    · cases hg; simp [Outcome.abort]
    · split at hg
      · cases hg; simp [Outcome.abort]
      · cases hg
  | ok g =>
    rcases munch_loop_abort cb json z g (to_int json.length).toNat w with h | h <;>
      simp [h]

/-- With the long file loaded, the entry point aborts on the short-file size
assertion exactly when the length is not strictly between 3000 and 4096. -/
theorem vlm_json_perftest_short_size_iff {σ : Type} (cb : Callback σ) (sys : Sys)
    (short_file long_file : List Nat) (z : Bool) (w : World σ)
    (hlong : 5000000 < long_file.length)
    (hbuf : sys.long_buf ≠ 0 ∧ sys.short_buf ≠ 0) :
    (vlm_json_perftest cb sys (some short_file) (some long_file) z w).abort = some .short_size
      ↔ ¬ (3000 < short_file.length ∧ short_file.length < 4096) := by
  by_cases h : 3000 < short_file.length ∧ short_file.length < 4096
  · simp only [vlm_json_perftest, load_file, hbuf.1, hbuf.2, if_false, gt_iff_lt, hlong,
      not_true, h, and_self]
    simp [munch_short_json_abort]
  · simp only [vlm_json_perftest, load_file, hbuf.1, hbuf.2, if_false, gt_iff_lt, hlong,
      not_true, h]
    simp [Outcome.abort]

/-- C3 as stated fails: short files of exactly 3,000 and of exactly 4,096 bytes
are rejected by the size assertion of `vlm_json_perftest`. -/
theorem vlm_json_perftest_rejects_bounds :
    (vlm_json_perftest reading_callback sample_sys (some (blank_file 3000))
      (some (blank_file 5000001)) false (World.fresh (fun _ => 0) ())).abort
      = some .short_size ∧
    (vlm_json_perftest reading_callback sample_sys (some (blank_file 4096))
      (some (blank_file 5000001)) false (World.fresh (fun _ => 0) ())).abort
      = some .short_size := by
  constructor
  · refine (vlm_json_perftest_short_size_iff _ _ _ _ _ _ ?_ ⟨by decide, by decide⟩).mpr ?_
    · rw [blank_file_length]; decide
    · rw [blank_file_length]; decide
  · refine (vlm_json_perftest_short_size_iff _ _ _ _ _ _ ?_ ⟨by decide, by decide⟩).mpr ?_
    · rw [blank_file_length]; decide
    · rw [blank_file_length]; decide

/-- C3, amended: with a long file of more than 5,000,000 bytes loaded, the size
assertion on the short file rejects it exactly when its length is not strictly
between 3,000 and 4,096; so 3,001 and 4,095 bytes are accepted, and 2,999,
3,000, 4,096 and 4,097 bytes are rejected. -/
theorem vlm_json_perftest_short_size {σ : Type} (cb : Callback σ) (sys : Sys)
    (short_file long_file : List Nat) (z : Bool) (w : World σ)
    (hlong : 5000000 < long_file.length)
    (hbuf : sys.long_buf ≠ 0 ∧ sys.short_buf ≠ 0) :
    ((vlm_json_perftest cb sys (some short_file) (some long_file) z w).abort = some .short_size
      ↔ ¬ (3000 < short_file.length ∧ short_file.length < 4096)) ∧
    (short_file.length = 3001 ∨ short_file.length = 4095 →
      (vlm_json_perftest cb sys (some short_file) (some long_file) z w).abort
        ≠ some .short_size) ∧
    (short_file.length = 2999 ∨ short_file.length = 3000 ∨ short_file.length = 4096 ∨
      short_file.length = 4097 →
      (vlm_json_perftest cb sys (some short_file) (some long_file) z w).abort
        = some .short_size) := by
  have key := vlm_json_perftest_short_size_iff cb sys short_file long_file z w hlong hbuf
  refine ⟨key, fun h habs => ?_, fun h => key.mpr ?_⟩
  · have := key.mp habs
    omega
  · omega

/-- Witness of the amended C3 on a 3,001-byte short file. -/
theorem vlm_json_perftest_short_size_witness :
    (5000000 < (blank_file 5000001).length ∧
      sample_sys.long_buf ≠ 0 ∧ sample_sys.short_buf ≠ 0) ∧
    (vlm_json_perftest reading_callback sample_sys (some (blank_file 3001))
      (some (blank_file 5000001)) true (World.fresh (fun _ => 0) ())).abort
      ≠ some .short_size :=
  ⟨⟨by rw [blank_file_length]; decide, by decide, by decide⟩,
    (vlm_json_perftest_short_size reading_callback sample_sys (blank_file 3001)
      (blank_file 5000001) true (World.fresh (fun _ => 0) ()) (by rw [blank_file_length]; decide)
      ⟨by decide, by decide⟩).2.1 (Or.inl (blank_file_length 3001))⟩


/-! ## The boundary fuzz driver -/

/-- A length that fits in an `int` is unchanged by the conversion. -/
theorem to_int_toNat (n : Nat) (hn : n < 2 ^ 31) : (to_int n).toNat = n := by
  unfold to_int
  have h1 : n % 2 ^ 32 = n := Nat.mod_eq_of_lt (by omega)
  rw [h1, if_pos hn]
  simp

/-- The values of `pfxlen`, as a reversed range. -/
theorem descending_eq (n : Nat) : descending n = (List.range' 2 (n - 1)).reverse := by
  induction n with
  | zero => rfl
  | succ k ih =>
    cases k with
    | zero => rfl
    | succ k =>
      rw [descending, ih]
      have e : k + 1 + 1 - 1 = (k + 1 - 1) + 1 := by omega
      rw [e, List.range'_concat]
      simp
      omega

/-- A run that did not abort returned its world. -/
theorem Outcome.eq_ok_of_abort {σ : Type} (r : Outcome σ) (h : r.abort = none) :
    r = .ok r.world := by
  cases r with
  | ok w => rfl
  | error e => simp [Outcome.abort] at h

/-- The block used by `munch_short_json` and the loop it runs, for an input
whose length fits in an `int`. -/
theorem munch_short_json_eq {σ : Type} (cb : Callback σ) (sys : Sys) (json : List Nat)
    (z : Bool) (w : World σ) (hmap : sys.mmap_ret ≠ 0) (hprot : sys.mprotect_ret = 0)
    (hlen : json.length < 2 ^ 31) :
    ∃ g, mmap_with_guard_page sys (json.length + 1) = .ok g ∧
      g.unmap_p = sys.mmap_ret ∧
      g.unmap_p + json.length + 1 ≤ g.guard_p ∧
      munch_short_json cb sys json z w = munch_loop cb json z g json.length w := by
  have hmod : (json.length + 1) % SIZE_MOD = json.length + 1 :=
    Nat.mod_eq_of_lt (by unfold SIZE_MOD; omega)
  have hok := mmap_with_guard_page_ok sys (json.length + 1) hmap hprot
  refine ⟨_, hok, rfl, ?_, ?_⟩
  · simp only [rounded_size_eq (json.length + 1) (by omega)]
    omega
  · unfold munch_short_json
    rw [hmod, hok, to_int_toNat _ hlen]


/-- A store is read back. -/
theorem Mem.set_same (m : Mem) (a v : Nat) : m.set a v a = v := by
  simp [Mem.set]

/-- A store leaves the other addresses alone. -/
theorem Mem.set_other (m : Mem) (a v x : Nat) (h : x ≠ a) : m.set a v x = m x := by
  simp [Mem.set, h]

/-- The copied prefix, before the first mutation. -/
theorem copied_mem_body (json : List Nat) (z : Bool) (g : guarded_mem_block) (p : Nat) (m : Mem)
    (i : Nat) (hi : i < p) : copied_mem json z g p m (copy g p z + i) = json.getD i 0 := by
  cases z <;> simp [copied_mem, Mem.set, Mem.copy, hi]
  omega

/-- The terminator, before the first mutation. -/
theorem copied_mem_terminator (json : List Nat) (g : guarded_mem_block) (p : Nat) (m : Mem) :
    copied_mem json true g p m (copy g p true + p) = 0 := by
  simp [copied_mem, Mem.set]

/-- Meaning of the integrity check. -/
theorem memcmp_eq_iff (m : Mem) (p : Nat) (src : List Nat) (n : Nat) :
    memcmp_eq m p src n = true ↔ ∀ i, i < n → m (p + i) = src.getD i 0 := by
  simp [memcmp_eq]

/-- Reading the first `k` bytes of a list. -/
theorem take_eq_map_range (l : List Nat) (k : Nat) (hk : k ≤ l.length) :
    (List.range k).map (fun i => l.getD i 0) = l.take k := by
  apply List.ext_getElem
  · simp [hk]
  · intro i h1 h2
    simp at h1 h2
    simp [List.getElem_take, List.getD_eq_getElem, h2.2]

/-- A buffer that holds a prefix of `l` followed by `j`. -/
theorem map_range_eq_take_append (l : List Nat) (f : Nat → Nat) (p j : Nat) (hp : 1 ≤ p)
    (hl : p ≤ l.length + 1) (hf : ∀ i, i + 1 < p → f i = l.getD i 0) (hj : f (p - 1) = j) :
    (List.range p).map f = l.take (p - 1) ++ [j] := by
  obtain ⟨k, rfl⟩ : ∃ k, p = k + 1 := ⟨p - 1, by omega⟩
  rw [List.range_succ, List.map_append, ← take_eq_map_range l _ (by omega)]
  simp only [Nat.add_sub_cancel] at hj ⊢
  congr 1
  · apply List.map_congr_left
    intro i hi
    exact hf i (by simpa using hi)
  · simp [hj]

/-- C5: when the callback never writes to the `len` bytes it is given, every
run of `munch_short_json` on an input of length `L < 2 ^ 31` returns, and the
buffers handed to the callback are, for `pfxlen = L, L - 1, ..., 2` and for
`j = 0, ..., 255` in this order, the first `pfxlen - 1` bytes of the input
followed by the byte `j`. -/
theorem munch_short_json_buffers {σ : Type} (cb : Callback σ) (sys : Sys)
    (json : List Nat) (zero_termination_required : Bool) (m : Mem) (s : σ)
    (hmap : sys.mmap_ret ≠ 0) (hprot : sys.mprotect_ret = 0) (hlen : json.length < 2 ^ 31)
    (hcb : ∀ s m a l i, i < l → (cb s m a l).2 (a + i) = m (a + i)) :
    ∃ w, munch_short_json cb sys json zero_termination_required (World.fresh m s) = .ok w ∧
      w.calls.map Call.buffer =
        (List.range' 2 (json.length - 1)).reverse.flatMap
          (fun pfxlen => (List.range 256).map (fun j => json.take (pfxlen - 1) ++ [j])) := by
  obtain ⟨g, -, -, -, hrun⟩ := munch_short_json_eq cb sys json zero_termination_required
    (World.fresh m s) hmap hprot hlen
  rw [hrun]
  obtain ⟨-, -, h3, h4, -⟩ := munch_loop_spec cb json zero_termination_required g json.length
    (fun p m => ∀ i, i + 1 < p → m (copy g p zero_termination_required + i) = json.getD i 0)
    (fun _ _ => True) Call.buffer (fun p j => json.take (p - 1) ++ [j])
    (fun p m _ _ i hi => copied_mem_body json _ g p m i (by omega))
    (fun p m v _ _ hI i hi => by
      rw [Mem.set_other _ _ _ _ (by unfold munchchar; omega)]
      exact hI i hi)
    (fun p s m _ _ hI i hi => by
      rw [hcb s m _ p i (by omega)]
      exact hI i hi)
    (by intros; trivial)
    (fun p m j hp hpl hI _ => by
      unfold Call.buffer
      apply map_range_eq_take_append json _ p j (by omega) (by omega)
      · intro i hi
        simp only []
        rw [Mem.set_other _ _ _ _ (by unfold munchchar; omega)]
        exact hI i hi
      · exact Mem.set_same _ _ _)
    json.length (le_refl _) (World.fresh m s)
  have hab := h4 (fun p m _ _ hI => by
    rw [memcmp_eq_iff]
    intro i hi
    exact hI i (by omega))
  refine ⟨_, Outcome.eq_ok_of_abort _ hab, ?_⟩
  rw [h3 hab, descending_eq]
  rfl

/-- Witness of C5: a three-byte input and a callback that only reads. -/
theorem munch_short_json_buffers_witness :
    (sample_sys.mmap_ret ≠ 0 ∧ sample_sys.mprotect_ret = 0 ∧ [123, 125, 10].length < 2 ^ 31 ∧
      ∀ (s : Unit) (m : Mem) (a l i : Nat), i < l →
        (reading_callback s m a l).2 (a + i) = m (a + i)) ∧
    ∃ w, munch_short_json reading_callback sample_sys [123, 125, 10] true
        (World.fresh (fun _ => 0) ()) = .ok w ∧
      w.calls.map Call.buffer =
        (List.range' 2 ([123, 125, 10].length - 1)).reverse.flatMap
          (fun pfxlen => (List.range 256).map (fun j => [123, 125, 10].take (pfxlen - 1) ++ [j])) :=
  ⟨⟨by decide, rfl, by decide, fun _ _ _ _ _ _ => rfl⟩,
    munch_short_json_buffers reading_callback sample_sys [123, 125, 10] true
      (fun _ => 0) () (by decide) rfl (by decide) (fun _ _ _ _ _ _ => rfl)⟩


/-- C6 as stated fails: the terminator is stored once for each prefix length,
before the 256 rounds, so a callback that overwrites `json[len]` is handed a
buffer without terminator from the second round on. -/
theorem munch_short_json_terminator_overwritten :
    ((munch_short_json terminator_writing_callback sample_sys [123, 125] true
      (World.fresh (fun _ => 0) ())).world.calls.map
        (fun c => c.mem (c.json + c.len))).take 3 = [0, 1, 1] := by
  decide!

/-- C6, amended: at every invocation made by `munch_short_json` on an input
of length `L < 2 ^ 31` the length is in `[2, L]`; with the flag set, offset
`len` of the copy lies at `guard_p - 1`, before the guard page, and holds `0`
at every invocation provided the callback never overwrites the byte that
follows its buffer; with the flag not set, offset `len` is `guard_p` itself.
No store of `munch_short_json` goes to `guard_p`. -/
theorem munch_short_json_terminator {σ : Type} (cb : Callback σ) (sys : Sys)
    (json : List Nat) (zero_termination_required : Bool) (m : Mem) (s : σ)
    (hmap : sys.mmap_ret ≠ 0) (hprot : sys.mprotect_ret = 0) (hlen : json.length < 2 ^ 31) :
    ∃ g, mmap_with_guard_page sys (json.length + 1) = .ok g ∧
      (∀ c ∈ (munch_short_json cb sys json zero_termination_required
          (World.fresh m s)).world.calls,
        2 ≤ c.len ∧ c.len ≤ json.length ∧
        (zero_termination_required = true →
          c.json + c.len = g.guard_p - 1 ∧ c.json + c.len < g.guard_p) ∧
        (zero_termination_required = false → c.json + c.len = g.guard_p)) ∧
      (∀ a ∈ (munch_short_json cb sys json zero_termination_required
          (World.fresh m s)).world.writes, a ≠ g.guard_p) ∧
      ((∀ s m a l, (cb s m a l).2 (a + l) = m (a + l)) →
        zero_termination_required = true →
        ∀ c ∈ (munch_short_json cb sys json zero_termination_required
          (World.fresh m s)).world.calls, c.mem (c.json + c.len) = 0) := by
  obtain ⟨g, hg, -, hguard, hrun⟩ := munch_short_json_eq cb sys json
    zero_termination_required (World.fresh m s) hmap hprot hlen
  rw [hrun]
  refine ⟨g, hg, ?_, ?_, ?_⟩
  · obtain ⟨h1, -, -, -, -⟩ := munch_loop_spec cb json zero_termination_required g
      json.length (fun _ _ => True)
      (fun p c => c.json = copy g p zero_termination_required ∧ c.len = p)
      (fun _ => ()) (fun _ _ => ())
      (by intros; trivial) (by intros; trivial) (by intros; trivial)
      (fun p m j _ _ _ _ => ⟨rfl, rfl⟩) (by intros; rfl)
      json.length (le_refl _) (World.fresh m s)
    intro c hc
    rcases h1 c hc with h | ⟨p, hp2, hpl, hj, hl⟩
    · simp [World.fresh] at h
    · rw [hj, hl]
      refine ⟨hp2, hpl, fun h => ⟨?_, ?_⟩, fun h => ?_⟩
      all_goals subst h
      all_goals simp only [copy, if_true, if_false, Bool.false_eq_true]
      all_goals omega
  · obtain ⟨-, h2, -, -, -⟩ := munch_loop_spec cb json zero_termination_required g
      json.length (fun _ _ => True) (fun _ _ => True) (fun _ => ()) (fun _ _ => ())
      (by intros; trivial) (by intros; trivial) (by intros; trivial)
      (by intros; trivial) (by intros; rfl)
      json.length (le_refl _) (World.fresh m s)
    intro a ha
    rcases h2 a ha with h | ⟨p, hp2, hpl, h⟩
    · simp [World.fresh] at h
    · revert h
      cases zero_termination_required <;> simp [copy] <;> omega
  · intro hcb hz
    subst hz
    obtain ⟨h1, -, -, -, -⟩ := munch_loop_spec cb json true g json.length
      (fun p m => m (copy g p true + p) = 0)
      (fun _ c => c.mem (c.json + c.len) = 0)
      (fun _ => ()) (fun _ _ => ())
      (fun p m _ _ => copied_mem_terminator json g p m)
      (fun p m v _ _ hI => by
        show (m.set (munchchar g p true) v) (copy g p true + p) = 0
        rw [Mem.set_other _ _ _ _ (by unfold munchchar; omega)]
        exact hI)
      (fun p s m _ _ hI => by
        show (cb s m (copy g p true) p).2 (copy g p true + p) = 0
        rw [hcb s m _ p]
        exact hI)
      (fun p m j _ _ hI _ => by
        show (m.set (munchchar g p true) j) (copy g p true + p) = 0
        rw [Mem.set_other _ _ _ _ (by unfold munchchar; omega)]
        exact hI)
      (by intros; rfl)
      json.length (le_refl _) (World.fresh m s)
    intro c hc
    rcases h1 c hc with h | ⟨p, -, -, h⟩
    · simp [World.fresh] at h
    · exact h

/-- Witness of the amended C6: a two-byte input and a callback that only reads. -/
theorem munch_short_json_terminator_witness :
    (sample_sys.mmap_ret ≠ 0 ∧ sample_sys.mprotect_ret = 0 ∧ [123, 125].length < 2 ^ 31) ∧
    ∃ g, mmap_with_guard_page sample_sys ([123, 125].length + 1) = .ok g ∧
      (∀ c ∈ (munch_short_json reading_callback sample_sys [123, 125] true
          (World.fresh (fun _ => 7) ())).world.calls,
        2 ≤ c.len ∧ c.len ≤ [123, 125].length ∧
        (true = true → c.json + c.len = g.guard_p - 1 ∧ c.json + c.len < g.guard_p) ∧
        (true = false → c.json + c.len = g.guard_p)) ∧
      (∀ a ∈ (munch_short_json reading_callback sample_sys [123, 125] true
          (World.fresh (fun _ => 7) ())).world.writes, a ≠ g.guard_p) ∧
      ((∀ (s : Unit) (m : Mem) (a l : Nat), (reading_callback s m a l).2 (a + l) = m (a + l)) →
        true = true →
        ∀ c ∈ (munch_short_json reading_callback sample_sys [123, 125] true
          (World.fresh (fun _ => 7) ())).world.calls, c.mem (c.json + c.len) = 0) :=
  ⟨⟨by decide, rfl, by decide⟩,
    munch_short_json_terminator reading_callback sample_sys [123, 125] true
      (fun _ => 7) () (by decide) rfl (by decide)⟩

/-- C7 as stated fails with the flag set: at every invocation of this run the
last bytes of the copy, `copy[pfxlen - 1]`, is at `guard_p - 2` and the byte
after it, `copy[pfxlen]`, is at `guard_p - 1`, outside the guard page. -/
theorem munch_short_json_terminated_last_byte :
    ∃ g, mmap_with_guard_page sample_sys ([123, 125].length + 1) = .ok g ∧
      g.guard_p - 2 ≠ g.guard_p - 1 ∧
      (munch_short_json reading_callback sample_sys [123, 125] true
        (World.fresh (fun _ => 0) ())).world.calls.map
          (fun c => (c.json + (c.len - 1), c.json + c.len))
        = List.replicate 256 (g.guard_p - 2, g.guard_p - 1) := by
  refine ⟨_, rfl, ?_, ?_⟩ <;> decide!

/-- C7, amended: at every invocation made by `munch_short_json` on an input of
length `L < 2 ^ 31` the length is in `[2, L]`; with the flag not set the last
byte of the copy, `copy[len - 1]`, is at `guard_p - 1` and `copy[len]` is
`guard_p`, the first byte of the guard page; with the flag set `copy[len - 1]`
is at `guard_p - 2`, the terminator `copy[len]` at `guard_p - 1`, and
`copy[len + 1]` is `guard_p`.  The same holds of `munchchar` and `copy` for
every `pfxlen` in `[2, L]`. -/
theorem munch_short_json_last_byte {σ : Type} (cb : Callback σ) (sys : Sys)
    (json : List Nat) (zero_termination_required : Bool) (m : Mem) (s : σ)
    (hmap : sys.mmap_ret ≠ 0) (hprot : sys.mprotect_ret = 0) (hlen : json.length < 2 ^ 31) :
    ∃ g, mmap_with_guard_page sys (json.length + 1) = .ok g ∧
      (∀ c ∈ (munch_short_json cb sys json zero_termination_required
          (World.fresh m s)).world.calls,
        2 ≤ c.len ∧ c.len ≤ json.length ∧
        (zero_termination_required = false →
          c.json + (c.len - 1) = g.guard_p - 1 ∧ c.json + c.len = g.guard_p) ∧
        (zero_termination_required = true →
          c.json + (c.len - 1) = g.guard_p - 2 ∧ c.json + c.len = g.guard_p - 1 ∧
            c.json + (c.len + 1) = g.guard_p)) ∧
      (∀ pfxlen, 2 ≤ pfxlen → pfxlen ≤ json.length →
        (zero_termination_required = false →
          munchchar g pfxlen zero_termination_required = g.guard_p - 1 ∧
            copy g pfxlen zero_termination_required + pfxlen = g.guard_p) ∧
        (zero_termination_required = true →
          munchchar g pfxlen zero_termination_required = g.guard_p - 2 ∧
            copy g pfxlen zero_termination_required + pfxlen = g.guard_p - 1)) := by
  obtain ⟨g, hg, -, hguard, hrun⟩ := munch_short_json_eq cb sys json
    zero_termination_required (World.fresh m s) hmap hprot hlen
  rw [hrun]
  obtain ⟨h1, -, -, -, -⟩ := munch_loop_spec cb json zero_termination_required g json.length
    (fun _ _ => True)
    (fun p c => c.json = copy g p zero_termination_required ∧ c.len = p)
    (fun _ => ()) (fun _ _ => ())
    (by intros; trivial) (by intros; trivial) (by intros; trivial)
    (fun p m j _ _ _ _ => ⟨rfl, rfl⟩) (by intros; rfl)
    json.length (le_refl _) (World.fresh m s)
  refine ⟨g, hg, ?_, ?_⟩
  · intro c hc
    rcases h1 c hc with h | ⟨p, hp2, hpl, hj, hl⟩
    · simp [World.fresh] at h
    · rw [hj, hl]
      refine ⟨hp2, hpl, fun h => ⟨?_, ?_⟩, fun h => ⟨?_, ?_, ?_⟩⟩
      all_goals subst h
      all_goals simp only [copy, if_true, if_false, Bool.false_eq_true]
      all_goals omega
  · intro p hp2 hpl
    refine ⟨fun h => ⟨?_, ?_⟩, fun h => ⟨?_, ?_⟩⟩
    all_goals subst h
    all_goals simp only [munchchar, copy, if_true, if_false, Bool.false_eq_true]
    all_goals omega

/-- Witness of the amended C7: a two-byte input, the flag set. -/
theorem munch_short_json_last_byte_witness :
    (sample_sys.mmap_ret ≠ 0 ∧ sample_sys.mprotect_ret = 0 ∧ [123, 125].length < 2 ^ 31) ∧
    ∃ g, mmap_with_guard_page sample_sys ([123, 125].length + 1) = .ok g ∧
      (∀ c ∈ (munch_short_json reading_callback sample_sys [123, 125] true
          (World.fresh (fun _ => 7) ())).world.calls,
        2 ≤ c.len ∧ c.len ≤ [123, 125].length ∧
        (true = false →
          c.json + (c.len - 1) = g.guard_p - 1 ∧ c.json + c.len = g.guard_p) ∧
        (true = true →
          c.json + (c.len - 1) = g.guard_p - 2 ∧ c.json + c.len = g.guard_p - 1 ∧
            c.json + (c.len + 1) = g.guard_p)) ∧
      (∀ pfxlen, 2 ≤ pfxlen → pfxlen ≤ [123, 125].length →
        (true = false →
          munchchar g pfxlen true = g.guard_p - 1 ∧ copy g pfxlen true + pfxlen = g.guard_p) ∧
        (true = true →
          munchchar g pfxlen true = g.guard_p - 2 ∧
            copy g pfxlen true + pfxlen = g.guard_p - 1)) :=
  ⟨⟨by decide, rfl, by decide⟩,
    munch_short_json_last_byte reading_callback sample_sys [123, 125] true
      (fun _ => 7) () (by decide) rfl (by decide)⟩

/-- C10: for an input of length `L` with `L + 1 < 2 ^ 31`, whatever the callback
does, every address stored to by `munch_short_json` lies in the accessible part
`[unmap_p, guard_p)` of the mapping and every copy starts at or after
`unmap_p`; for each `pfxlen` in `[2, L]` the stores cover the addresses from
`copy` up to `guard_p - 1`, and `guard_p - 1` is stored to as soon as `L ≥ 2`. -/
theorem munch_short_json_writes_in_bounds {σ : Type} (cb : Callback σ) (sys : Sys)
    (json : List Nat) (zero_termination_required : Bool) (m : Mem) (s : σ)
    (hmap : sys.mmap_ret ≠ 0) (hprot : sys.mprotect_ret = 0)
    (hlen : json.length + 1 < 2 ^ 31) :
    ∃ g, mmap_with_guard_page sys (json.length + 1) = .ok g ∧
      (∀ a ∈ (munch_short_json cb sys json zero_termination_required
          (World.fresh m s)).world.writes, g.unmap_p ≤ a ∧ a ≤ g.guard_p - 1 ∧ a < g.guard_p) ∧
      (∀ c ∈ (munch_short_json cb sys json zero_termination_required
          (World.fresh m s)).world.calls, g.unmap_p ≤ c.json) ∧
      (∀ pfxlen, 2 ≤ pfxlen → pfxlen ≤ json.length →
        g.unmap_p ≤ copy g pfxlen zero_termination_required ∧
        copy g pfxlen zero_termination_required + pfxlen
          + (if zero_termination_required then 1 else 0) = g.guard_p) ∧
      (2 ≤ json.length → g.guard_p - 1 ∈ (munch_short_json cb sys json
          zero_termination_required (World.fresh m s)).world.writes) := by
  obtain ⟨g, hg, -, hguard, hrun⟩ := munch_short_json_eq cb sys json
    zero_termination_required (World.fresh m s) hmap hprot (by omega)
  rw [hrun]
  obtain ⟨h1, h2, -, -, h5⟩ := munch_loop_spec cb json zero_termination_required g json.length
    (fun _ _ => True)
    (fun p c => c.json = copy g p zero_termination_required)
    (fun _ => ()) (fun _ _ => ())
    (by intros; trivial) (by intros; trivial) (by intros; trivial)
    (fun p m j _ _ _ _ => rfl) (by intros; rfl)
    json.length (le_refl _) (World.fresh m s)
  refine ⟨g, hg, ?_, ?_, ?_, ?_⟩
  · intro a ha
    rcases h2 a ha with h | ⟨p, hp2, hpl, h⟩
    · simp [World.fresh] at h
    · revert h
      cases zero_termination_required <;> simp [copy] <;> omega
  · intro c hc
    rcases h1 c hc with h | ⟨p, hp2, hpl, hj⟩
    · simp [World.fresh] at h
    · rw [hj]
      cases zero_termination_required <;> simp [copy] <;> omega
  · intro p hp2 hpl
    cases zero_termination_required <;> simp [copy] <;> omega
  · intro hL
    apply h5
    right
    refine ⟨hL, ?_⟩
    cases zero_termination_required <;> simp [copy] <;> omega

/-- Witness of C10 at `L = 4095`, where `L + 1` is a whole page. -/
theorem munch_short_json_writes_in_bounds_witness :
    (sample_sys.mmap_ret ≠ 0 ∧ sample_sys.mprotect_ret = 0 ∧
      (blank_file 4095).length + 1 < 2 ^ 31) ∧
    ∃ g, mmap_with_guard_page sample_sys ((blank_file 4095).length + 1) = .ok g ∧
      (∀ a ∈ (munch_short_json reading_callback sample_sys (blank_file 4095) false
          (World.fresh (fun _ => 0) ())).world.writes,
        g.unmap_p ≤ a ∧ a ≤ g.guard_p - 1 ∧ a < g.guard_p) ∧
      (∀ c ∈ (munch_short_json reading_callback sample_sys (blank_file 4095) false
          (World.fresh (fun _ => 0) ())).world.calls, g.unmap_p ≤ c.json) ∧
      (∀ pfxlen, 2 ≤ pfxlen → pfxlen ≤ (blank_file 4095).length →
        g.unmap_p ≤ copy g pfxlen false ∧
        copy g pfxlen false + pfxlen + (if false = true then 1 else 0) = g.guard_p) ∧
      (2 ≤ (blank_file 4095).length → g.guard_p - 1 ∈ (munch_short_json reading_callback
          sample_sys (blank_file 4095) false (World.fresh (fun _ => 0) ())).world.writes) :=
  ⟨⟨by decide, rfl, by rw [blank_file_length]; decide⟩,
    munch_short_json_writes_in_bounds reading_callback sample_sys (blank_file 4095) false
      (fun _ => 0) () (by decide) rfl (by rw [blank_file_length]; decide)⟩


/-- C2, behaviour of the code: the integrity check compares `pfxlen - 2` bytes,
the indices `0 .. pfxlen - 3`.  With a callback that overwrites `json[len - 2]`
the pass for `pfxlen = 3` ends with byte `1` of the copy equal to `255`, not to
the `125` of the input, and its check succeeds; the whole run returns. -/
theorem munch_short_json_check_skips_neighbour :
    ∃ g, mmap_with_guard_page sample_sys ([123, 125, 10].length + 1) = .ok g ∧
      (munch_body neighbour_writing_callback [123, 125, 10] false g 3
        (World.fresh (fun _ => 0) ())).abort = none ∧
      (munch_body neighbour_writing_callback [123, 125, 10] false g 3
        (World.fresh (fun _ => 0) ())).world.mem (copy g 3 false + (3 - 2)) = 255 ∧
      [123, 125, 10].getD (3 - 2) 0 = 125 ∧
      (munch_short_json neighbour_writing_callback sample_sys [123, 125, 10] false
        (World.fresh (fun _ => 0) ())).abort = none := by
  refine ⟨_, rfl, ?_, ?_, ?_, ?_⟩ <;> decide!

end VlmJsonTest
